import Mathlib

/-!
Verification of the `cve_records` importer (management command
`import_cve_history.py`), its models (`models.py`) and the read API
(`views.py`) against their natural-language specification.

The embedding is shallow: Python values decoded from JSON are modelled by the
inductive type `Json` below, Python truthiness and `or` by `truthy`/`pyOr`,
and the Django ORM store by a list of rows.  Numbers are modelled as `Int`
(the upstream counters and ids relevant to the claims are integers).
-/

namespace CveRecords

/-- A JSON value as decoded by `response.json()` in Python.  Objects are
association lists in insertion order (Python dicts preserve insertion order);
JSON decoding never produces duplicate keys. -/
inductive Json where
  | null
  | bool (b : Bool)
  | num (n : Int)
  | str (s : String)
  | arr (elems : List Json)
  | obj (fields : List (String × Json))

mutual

/-- Structural equality of JSON values. -/
def Json.beq : Json → Json → Bool
  | .null, .null => true
  | .bool a, .bool c => a == c
  | .num a, .num c => a == c
  | .str a, .str c => a == c
  | .arr as, .arr cs => Json.beqArr as cs
  | .obj fs, .obj gs => Json.beqObj fs gs
  | _, _ => false

def Json.beqArr : List Json → List Json → Bool
  | [], [] => true
  | a :: as, c :: cs => Json.beq a c && Json.beqArr as cs
  | _, _ => false

def Json.beqObj : List (String × Json) → List (String × Json) → Bool
  | [], [] => true
  | (k, a) :: fs, (l, c) :: gs => k == l && Json.beq a c && Json.beqObj fs gs
  | _, _ => false

end

theorem Json.beqArr_iff_eq (as cs : List Json)
    (ih : ∀ a ∈ as, ∀ c, (Json.beq a c = true ↔ a = c)) :
    Json.beqArr as cs = true ↔ as = cs := by
  induction as generalizing cs with
  | nil => cases cs <;> simp [Json.beqArr]
  | cons a as ihl =>
    cases cs with
    | nil => simp [Json.beqArr]
    | cons c cs =>
      have h1 := ih a (by simp) c
      have h2 := ihl cs (fun x hx c => ih x (by simp [hx]) c)
      simp [Json.beqArr, h1, h2]

theorem Json.beqObj_iff_eq (fs gs : List (String × Json))
    (ih : ∀ p ∈ fs, ∀ c, (Json.beq p.2 c = true ↔ p.2 = c)) :
    Json.beqObj fs gs = true ↔ fs = gs := by
  induction fs generalizing gs with
  | nil => cases gs <;> simp [Json.beqObj]
  | cons p fs ihl =>
    cases gs with
    | nil => simp [Json.beqObj]
    | cons q gs =>
      obtain ⟨k, a⟩ := p
      obtain ⟨l, c⟩ := q
      have h1 := ih (k, a) (by simp) c
      have h2 := ihl gs (fun x hx c => ih x (by simp [hx]) c)
      simp [Json.beqObj, h1, h2, Prod.ext_iff]

theorem Json.beq_iff_eq_aux :
    ∀ (n : Nat) (a b : Json), sizeOf a ≤ n → (Json.beq a b = true ↔ a = b) := by
  intro n
  induction n with
  | zero =>
    intro a b h
    exfalso
    cases a <;> simp_all
  | succ n ihn =>
    intro a b h
    cases a <;> cases b <;> simp [Json.beq]
    case arr.arr as cs =>
      apply Json.beqArr_iff_eq
      intro x hx c
      apply ihn
      have hlt : sizeOf x < sizeOf as := List.sizeOf_lt_of_mem hx
      have : sizeOf (Json.arr as) = 1 + sizeOf as := by simp
      omega
    case obj.obj fs gs =>
      apply Json.beqObj_iff_eq
      intro p hp c
      apply ihn
      have hlt : sizeOf p < sizeOf fs := List.sizeOf_lt_of_mem hp
      have hv : sizeOf p.2 < sizeOf p := by
        obtain ⟨u, v⟩ := p
        simp
      have : sizeOf (Json.obj fs) = 1 + sizeOf fs := by simp
      omega

theorem Json.beq_iff_eq (a b : Json) : Json.beq a b = true ↔ a = b :=
  Json.beq_iff_eq_aux (sizeOf a) a b (Nat.le_refl _)

instance : DecidableEq Json :=
  fun a b => decidable_of_iff (Json.beq a b = true) (Json.beq_iff_eq a b)

/-- Python truthiness of a decoded JSON value: `None`, `False`, `0`, `""`,
`[]` and `\x7b\x7d` are falsy, everything else truthy. -/
def truthy : Json → Bool
  | .null => false
  | .bool b => b
  | .num n => n != 0
  | .str s => !s.isEmpty
  | .arr xs => !xs.isEmpty
  | .obj fs => !fs.isEmpty

/-- Python `a or b` on decoded JSON values. -/
def pyOr (a b : Json) : Json := if truthy a then a else b

/-- `isinstance(v, dict)`. -/
def isDict : Json → Bool
  | .obj _ => true
  | _ => false

/-- `isinstance(v, list)`. -/
def isList : Json → Bool
  | .arr _ => true
  | _ => false

/-- `isinstance(v, (list, dict))` (the `details` check). -/
def isListOrDict (v : Json) : Bool := isList v || isDict v

/-- `isinstance(v, int)`.  In Python `bool` is a subclass of `int`, so
`True`/`False` satisfy this check as well. -/
def pyIsInt : Json → Bool
  | .num _ => true
  | .bool _ => true
  | _ => false

/-- The integer value of a Python `int` (with `True = 1`, `False = 0`). -/
def pyToInt : Json → Int
  | .num n => n
  | .bool b => if b then 1 else 0
  | _ => 0

/-- `d.get(k)` on a dict: the value stored under `k`, or `None` when the key
is absent.  On a non-dict value `get` is never reached in the translated
code paths; we return `None` to keep the function total. -/
def jget (v : Json) (k : String) : Json :=
  match v with
  | .obj fs =>
    match fs.lookup k with
    | some w => w
    | none => .null
  | _ => .null

/-! ### SHA-1 (`hashlib.sha1(...).hexdigest()`)

A direct model of SHA-1 over byte lists, with 32-bit words as `Nat` reduced
`% 2 ^ 32`.  Only functionality (not any algebraic property) of the hash is
used by the theorems: equal inputs hash to equal digests. -/

def w32 : Nat := 4294967296

def rotl32 (n w : Nat) : Nat := ((w <<< n) + (w >>> (32 - n))) % w32

/-- `k`-byte big-endian encoding of `n`. -/
def beBytes (k n : Nat) : List Nat :=
  (List.range k).map (fun i => n / 256 ^ (k - 1 - i) % 256)

/-- SHA-1 message padding: `0x80`, zeros to 56 mod 64, 8-byte bit length. -/
def sha1pad (msg : List Nat) : List Nat :=
  let z := (64 - (msg.length + 9) % 64) % 64
  msg ++ 128 :: List.replicate z 0 ++ beBytes 8 (msg.length * 8)

/-- The sixteen 32-bit big-endian words of one 64-byte block. -/
def blockWords (block : List Nat) : List Nat :=
  (List.range 16).map (fun i =>
    ((block.drop (4 * i)).take 4).foldl (fun a b => a * 256 + b) 0)

/-- Extend 16 words to the 80-word SHA-1 schedule. -/
def sha1schedule (ws : List Nat) : List Nat :=
  (List.range 64).foldl
    (fun acc j =>
      let i := j + 16
      acc ++ [rotl32 1 (acc.getD (i - 3) 0 ^^^ acc.getD (i - 8) 0 ^^^
                        acc.getD (i - 14) 0 ^^^ acc.getD (i - 16) 0)])
    ws

def Sha1State := Nat × Nat × Nat × Nat × Nat

def sha1round (st : Sha1State) (p : Nat × Nat) : Sha1State :=
  let (a, b, c, d, e) := st
  let (i, wi) := p
  let f :=
    if i < 20 then (b &&& c) + ((b ^^^ (w32 - 1)) &&& d)
    else if i < 40 then b ^^^ c ^^^ d
    else if i < 60 then (b &&& c) ^^^ (b &&& d) ^^^ (c &&& d)
    else b ^^^ c ^^^ d
  let k :=
    if i < 20 then 1518500249
    else if i < 40 then 1859775393
    else if i < 60 then 2400959708
    else 3395469782
  let temp := (rotl32 5 a + f + e + k + wi) % w32
  (temp, a, rotl32 30 b, c, d)

def sha1block (h : Sha1State) (block : List Nat) : Sha1State :=
  let ws := sha1schedule (blockWords block)
  let (a, b, c, d, e) :=
    ((List.range 80).zip ws).foldl sha1round h
  let (h0, h1, h2, h3, h4) := h
  ((h0 + a) % w32, (h1 + b) % w32, (h2 + c) % w32, (h3 + d) % w32, (h4 + e) % w32)

def sha1blocks (h : Sha1State) (bytes : List Nat) : Sha1State :=
  if bytes.isEmpty then h
  else sha1blocks (sha1block h (bytes.take 64)) (bytes.drop 64)
termination_by bytes.length
decreasing_by
  simp [List.isEmpty_iff] at *
  rename_i hne
  have : bytes.length ≠ 0 := fun h0 => hne (List.eq_nil_of_length_eq_zero h0)
  omega

def hexDigit (n : Nat) : Char :=
  if n < 10 then Char.ofNat (48 + n) else Char.ofNat (87 + n)

/-- Fixed-width (8 hex digits) rendering of a 32-bit word. -/
def wordHex (w : Nat) : List Char :=
  [hexDigit (w / 16 ^ 7 % 16), hexDigit (w / 16 ^ 6 % 16),
   hexDigit (w / 16 ^ 5 % 16), hexDigit (w / 16 ^ 4 % 16),
   hexDigit (w / 16 ^ 3 % 16), hexDigit (w / 16 ^ 2 % 16),
   hexDigit (w / 16 % 16), hexDigit (w % 16)]

/-- `hashlib.sha1(bytes).hexdigest()`. -/
def sha1hex (msg : List Nat) : String :=
  let (h0, h1, h2, h3, h4) :=
    sha1blocks (1732584193, 4023233417, 2562383102, 271733878, 3285377520)
      (sha1pad msg)
  String.mk (wordHex h0 ++ wordHex h1 ++ wordHex h2 ++ wordHex h3 ++ wordHex h4)

/-- `s.encode("utf-8")` for one character. -/
def utf8EncodeChar (c : Char) : List Nat :=
  let n := c.toNat
  if n < 128 then [n]
  else if n < 2048 then [192 + n / 64, 128 + n % 64]
  else if n < 65536 then [224 + n / 4096, 128 + n / 64 % 64, 128 + n % 64]
  else [240 + n / 262144, 128 + n / 4096 % 64, 128 + n / 64 % 64, 128 + n % 64]

/-- `s.encode("utf-8")`. -/
def utf8Encode (s : String) : List Nat :=
  (s.data.map utf8EncodeChar).flatten

/-! ### `json.dumps(change, sort_keys=True)`

Python's `json.dumps` with default separators renders `", "` between items
and `": "` between keys and values, escapes non-ASCII characters
(`ensure_ascii=True`), and with `sort_keys=True` sorts the keys of every
object by Unicode code point.  We model it as serialization of the
recursively key-sorted value (`Json.canon`), which is the same function.
JSON-decoded values are always serializable, so the `except` fallback to
`str(change)` at line 183 of the importer is unreachable for them. -/

def uHex (n : Nat) : List Char :=
  [hexDigit (n / 4096 % 16), hexDigit (n / 256 % 16),
   hexDigit (n / 16 % 16), hexDigit (n % 16)]

/-- JSON string escaping as performed by `json.dumps` with `ensure_ascii`. -/
def jsonEscapeChar (c : Char) : List Char :=
  if c = '"' then ['\\', '"']
  else if c = '\\' then ['\\', '\\']
  else if c = '\n' then ['\\', 'n']
  else if c = '\t' then ['\\', 't']
  else if c = '\r' then ['\\', 'r']
  else if c.toNat = 8 then ['\\', 'b']
  else if c.toNat = 12 then ['\\', 'f']
  else if c.toNat < 32 || c.toNat > 126 then
    if c.toNat < 65536 then '\\' :: 'u' :: uHex c.toNat
    else
      let m := c.toNat - 65536
      '\\' :: 'u' :: uHex (55296 + m / 1024) ++ '\\' :: 'u' :: uHex (56320 + m % 1024)
  else [c]

def jsonQuote (s : String) : String :=
  String.mk ('"' :: (s.data.map jsonEscapeChar).flatten ++ ['"'])

/-- Insertion into a key-sorted association list (comparison on keys only). -/
def insertField (p : String × Json) : List (String × Json) → List (String × Json)
  | [] => [p]
  | q :: qs => if p.1 ≤ q.1 then p :: q :: qs else q :: insertField p qs

/-- `sorted(fields)` by key, as `sort_keys=True` does. -/
def sortFields : List (String × Json) → List (String × Json)
  | [] => []
  | p :: ps => insertField p (sortFields ps)

mutual

/-- Recursively sort all object keys (the canonical form serialized by
`json.dumps(..., sort_keys=True)`). -/
def Json.canon : Json → Json
  | .obj fs => .obj (sortFields (Json.canonFields fs))
  | .arr xs => .arr (Json.canonArr xs)
  | j => j

def Json.canonArr : List Json → List Json
  | [] => []
  | x :: xs => Json.canon x :: Json.canonArr xs

def Json.canonFields : List (String × Json) → List (String × Json)
  | [] => []
  | (k, v) :: fs => (k, Json.canon v) :: Json.canonFields fs

end

mutual

/-- Serialization of a JSON value with Python `json.dumps` separators;
object fields are rendered in list order. -/
def Json.render : Json → String
  | .null => "null"
  | .bool b => if b then "true" else "false"
  | .num n => toString n
  | .str s => jsonQuote s
  | .arr xs => "[" ++ Json.renderArr xs ++ "]"
  | .obj fs => "\x7b" ++ Json.renderObj fs ++ "\x7d"

def Json.renderArr : List Json → String
  | [] => ""
  | [x] => Json.render x
  | x :: xs => Json.render x ++ ", " ++ Json.renderArr xs

def Json.renderObj : List (String × Json) → String
  | [] => ""
  | [(k, v)] => jsonQuote k ++ ": " ++ Json.render v
  | (k, v) :: fs => jsonQuote k ++ ": " ++ Json.render v ++ ", " ++ Json.renderObj fs

end

/-- `json.dumps(v, sort_keys=True)`. -/
def Json.dumps (v : Json) : String := Json.render (Json.canon v)

/-- The changeId synthesized at lines 178-184 of the importer for a change
mapping with no truthy `cveChangeId`/`id`:
`hashlib.sha1(json.dumps(change, sort_keys=True).encode("utf-8")).hexdigest()`. -/
def synthChangeId (change : Json) : String :=
  sha1hex (utf8Encode (Json.dumps change))

instance {ε α : Type} [DecidableEq ε] [DecidableEq α] : DecidableEq (Except ε α) :=
  fun a b =>
    match a, b with
    | .error e, .error f =>
      if h : e = f then .isTrue (by rw [h]) else .isFalse (by intro c; injection c; exact h (by assumption))
    | .ok x, .ok y =>
      if h : x = y then .isTrue (by rw [h]) else .isFalse (by intro c; injection c; exact h (by assumption))
    | .error _, .ok _ => .isFalse (fun c => Except.noConfusion c)
    | .ok _, .error _ => .isFalse (fun c => Except.noConfusion c)

/-! ### Record normalization (import_cve_history.py lines 35-76 and 151-195) -/

/-- Python exceptions that the modelled code paths can raise. -/
inductive RuntimeError where
  | typeError
  | integrityError
  | valueError
deriving DecidableEq

/-- `str.split(sep)` for a one-character separator, on the character list. -/
def splitChar (sep : Char) : List Char → List (List Char)
  | [] => [[]]
  | c :: cs =>
    match splitChar sep cs, decide (c = sep) with
    | r, true => [] :: r
    | [], false => [[c]]
    | g :: gs, false => (c :: g) :: gs

/-- Python `s.split(sep)` for a one-character separator (all separators used
by the modelled code are single characters). -/
def pySplit (sep : Char) (s : String) : List String :=
  (splitChar sep s.data).map String.mk

def allDigits (s : String) : Bool := !s.isEmpty && s.data.all Char.isDigit

def toNatD (s : String) : Nat := s.data.foldl (fun a c => a * 10 + (c.toNat - 48)) 0

def validDate (d : String) : Bool :=
  match pySplit '-' d with
  | [y, m, dd] =>
    y.length == 4 && allDigits y && allDigits m && m.length ≤ 2 &&
    1 ≤ toNatD m && toNatD m ≤ 12 && allDigits dd && dd.length ≤ 2 &&
    1 ≤ toNatD dd && toNatD dd ≤ 31
  | _ => false

def validTime (t : String) : Bool :=
  match pySplit ':' t with
  | [h, m] => allDigits h && toNatD h < 24 && allDigits m && toNatD m < 60
  | [h, m, sec] =>
    allDigits h && toNatD h < 24 && allDigits m && toNatD m < 60 &&
    (match pySplit '.' sec with
     | [ss] => allDigits ss && toNatD ss < 60
     | [ss, frac] => allDigits ss && toNatD ss < 60 && allDigits frac
     | _ => false)
  | _ => false

/-- Modelled from the behavior of `django.utils.dateparse.parse_datetime`
applied to a string: an ISO-8601-like recognizer, total over strings,
returning `none` when the string does not parse.  Parsed datetimes are
modelled by their source text; no claim depends on the exact accepted
language, only on totality over strings and determinism. -/
def parse_datetime_str (s : String) : Option String :=
  let parts :=
    match pySplit 'T' s with
    | [d, t] => (d, some t)
    | _ =>
      match pySplit ' ' s with
      | [d, t] => (d, some t)
      | _ => (s, none)
  match parts with
  | (d, none) => if validDate d then some s else none
  | (d, some t) => if validDate d && validTime t then some s else none

/-- `django.utils.dateparse.parse_datetime`: parses strings; a non-string
argument raises `TypeError` (`datetime.fromisoformat` rejects non-strings
and `parse_datetime` catches only `ValueError`). -/
def parse_datetime : Json → Except RuntimeError (Option String)
  | .str s => .ok (parse_datetime_str s)
  | _ => .error .typeError

/-- `payload.get(k)` on the response object. -/
def fget (payload : List (String × Json)) (k : String) : Json :=
  match payload.lookup k with
  | some v => v
  | none => .null

def recordKeys : List String :=
  ["vulnerabilities", "cveHistory", "result", "results", "cve_history"]

/-- `extract_records` (lines 35-50): the list under the first known key,
else the first top-level list value, else `[]`. -/
def extract_records (payload : List (String × Json)) : List Json :=
  match recordKeys.findSome? (fun k =>
      match payload.lookup k with
      | some (.arr xs) => some xs
      | _ => none) with
  | some xs => xs
  | none =>
    match payload.findSome? (fun p =>
        match p.2 with
        | .arr xs => some xs
        | _ => none) with
    | some xs => xs
    | none => []

/-- `find_cveId` (lines 53-68). -/
def find_cveId (rec : Json) : Json :=
  if isDict (jget rec "cve") && truthy (jget (jget rec "cve") "id") then
    jget (jget rec "cve") "id"
  else if truthy (jget rec "cveId") then jget rec "cveId"
  else if truthy (jget rec "cveId") then jget rec "cveId"
  else
    let c := pyOr (jget rec "cve") (.obj [])
    let meta := pyOr (jget c "CVE_data_meta") (.obj [])
    if isDict c && (isDict meta && truthy (jget meta "ID")) then jget meta "ID"
    else pyOr (jget rec "id") (pyOr (jget rec "name") (.str "unknown"))

/-- Line 159: `change.get("cveId") or change.get("cveId") or find_cveId(change)`. -/
def extract_cveId (change : Json) : Json :=
  pyOr (jget change "cveId") (pyOr (jget change "cveId") (find_cveId change))

/-- One `CVEHistory` row as built by the importer (models.py lines 6-35).
Field values are the Python values assigned at lines 186-195. -/
structure Rec where
  cveId : Json
  eventName : Json
  cveChangeId : Json
  sourceIdentifier : Json
  created : Option String
  details : Option Json
deriving DecidableEq

/-- One iteration of the normalization loop (lines 153-195): `.ok none`
models `continue` (record skipped), `.ok (some r)` a built row, `.error`
an uncaught exception escaping the loop. -/
def normalizeRecord (rec : Json) : Except RuntimeError (Option Rec) :=
  let change := if isDict rec && truthy (jget rec "change") then jget rec "change" else rec
  if !isDict change then .ok none
  else
    let cveId := extract_cveId change
    let eventName := pyOr (jget change "eventName") (jget change "eventName")
    let cveChangeId0 :=
      pyOr (jget change "cveChangeId") (pyOr (jget change "cveChangeId") (jget change "id"))
    let sourceIdentifier := pyOr (jget change "sourceIdentifier") (jget change "sourceIdentifier")
    let created_raw := pyOr (jget change "created") (pyOr (jget change "date") (jget change "time"))
    let created_dtE : Except RuntimeError (Option String) :=
      if truthy created_raw then
        match created_raw with
        | .str s =>
          -- lines 167-173: a failed parse retries without the fractional
          -- suffix inside try/except; parsing a string never raises
          .ok (match parse_datetime_str s with
               | some d => some d
               | none => parse_datetime_str ((pySplit '.' s).headD s))
        | v => (parse_datetime v).map (fun d => d)   -- line 167: uncaught TypeError
      else .ok none
    match created_dtE with
    | .error e => .error e
    | .ok created_dt =>
      let details :=
        if isListOrDict (jget change "details") then some (jget change "details") else none
      let cveChangeId :=
        if truthy cveChangeId0 then cveChangeId0 else .str (synthChangeId change)
      .ok (some
        { cveId := pyOr cveId (.str "unknown")
          eventName := eventName
          cveChangeId := cveChangeId
          sourceIdentifier := sourceIdentifier
          created := created_dt
          details := details })

/-- The `for rec in records` loop (lines 152-195) building `objs`. -/
def normalizeBatch : List Json → Except RuntimeError (List Rec)
  | [] => .ok []
  | r :: rs =>
    match normalizeRecord r with
    | .error e => .error e
    | .ok none => normalizeBatch rs
    | .ok (some o) =>
      match normalizeBatch rs with
      | .error e => .error e
      | .ok os => .ok (o :: os)

/-! ### Deduplicating persistence (lines 197-224) -/

def storeIds (store : List Rec) : List Json := store.map (·.cveChangeId)

/-- `CVEHistory.objects.bulk_create(to_create)`: each inserted row must
satisfy the unique constraint on `cveChangeId` (models.py line 14) against
all rows visible to the open transaction, including rows inserted earlier
in the same call; a violation raises `IntegrityError`. -/
def bulkCreate (store : List Rec) : List Rec → Except RuntimeError (List Rec)
  | [] => .ok store
  | r :: rs =>
    if decide (r.cveChangeId ∈ storeIds store) then .error .integrityError
    else bulkCreate (store ++ [r]) rs

/-- `chunk_ids` (line 204): the ids of this chunk, skipping falsy ones. -/
def chunk_ids (chunk : List Rec) : List Json :=
  (chunk.filter (fun o => truthy o.cveChangeId)).map (·.cveChangeId)

/-- `existing` (lines 206-212): the stored ids among `chunk_ids` (a set in
Python; only membership is used). -/
def existingIds (store chunk : List Rec) : List Json :=
  (storeIds store).filter (fun i => decide (i ∈ chunk_ids chunk))

/-- `to_create` (line 214). -/
def to_create (store chunk : List Rec) : List Rec :=
  chunk.filter (fun o => !decide (o.cveChangeId ∈ existingIds store chunk))

/-- One sub-batch (lines 202-220): query the ids of this chunk that already
exist, insert the complement. -/
def processChunk (store chunk : List Rec) :
    Except RuntimeError (List Rec × Nat) :=
  if (to_create store chunk).isEmpty then .ok (store, 0)
  else
    match bulkCreate store (to_create store chunk) with
    | .error e => .error e
    | .ok s' => .ok (s', (to_create store chunk).length)

/-- The body of the chunk loop, recursing on fuel so that the definition
reduces; `persistChunksRaw` supplies `objs.length` as fuel, which always
suffices since every step with `bs ≠ 0` consumes at least one element (the
fuel-exhausted branch is unreachable under that fuel). -/
def persistChunksGo (bs : Nat) :
    Nat → List Rec → List Rec → Nat → List Rec × Except RuntimeError Nat
  | _, [], store, acc => (store, .ok acc)
  | 0, _ :: _, store, acc => (store, .ok acc)
  | fuel + 1, o :: os, store, acc =>
    match processChunk store ((o :: os).take bs) with
    | .error e => (store, .error e)
    | .ok (s', n) => persistChunksGo bs fuel ((o :: os).drop bs) s' (acc + n)

/-- The chunk loop `for i in range(0, len(objs), batch_size)` (lines
201-220), threading the store as seen by the open transaction and the
running `created` count.  On an exception the store written so far (not
yet committed) is returned with the error; `range` with step 0 raises
`ValueError`. -/
def persistChunksRaw (bs : Nat) (objs : List Rec) (store : List Rec) (acc : Nat) :
    List Rec × Except RuntimeError Nat :=
  if bs = 0 then (store, .error .valueError)
  else persistChunksGo bs objs.length objs store acc

/-- `with transaction.atomic():` around the whole chunk loop (line 200):
on success all writes of all sub-batches are committed; on an exception
every write of the batch is rolled back and the error propagates (lines
221-224 re-raise). -/
def atomicPersist (store : List Rec) (objs : List Rec) (bs : Nat) :
    List Rec × Except RuntimeError Nat :=
  match persistChunksRaw bs objs store 0 with
  | (s', .ok n) => (s', .ok n)
  | (_, .error e) => (store, .error e)

/-! ### Checkpoint and the per-page orchestration (lines 89-243) -/

/-- `ImportCheckpoint` (models.py lines 38-46), the durably stored fields
the claims are about. -/
structure Checkpoint where
  next_index : Int
  total : Option Int
deriving DecidableEq

/-- The orchestrator state before/after one page: the stored rows, the
stored checkpoint, the in-memory offset `start` and the run-local
`total_results` (Python `None` modelled as `Json.null`). -/
structure RunState where
  store : List Rec
  cp : Checkpoint
  start : Int
  totalResults : Json
deriving DecidableEq

inductive PageOutcome where
  | stopped
  | imported (created : Nat)
  | failed (e : RuntimeError)
deriving DecidableEq

def totalKeys : List String := ["totalResults", "total", "count"]

/-- Lines 133-145: derivation of `total_results` from the page payload.
Note `isinstance(v, int)` also accepts booleans in Python. -/
def deriveTotal (tr : Json) (payload : List (String × Json)) : Json :=
  let tr1 :=
    if tr = .null then
      match totalKeys.findSome? (fun k =>
          match payload.lookup k with
          | some v => if pyIsInt v then some v else none
          | none => none) with
      | some v => v
      | none => .null
    else tr
  if tr1 = .null then pyOr (fget payload "totalResults") (fget payload "total") else tr1

/-- One iteration of the import loop after a successful fetch (lines
131-233): total detection, record extraction, normalization, persistence,
checkpoint advance and save.  `stopped` is the `break` on an empty page;
on `failed` the exception propagates before `checkpoint.save()` is
reached. -/
def runPage (bs : Nat) (st : RunState) (payload : List (String × Json)) :
    RunState × PageOutcome :=
  let tr := deriveTotal st.totalResults payload
  let records := extract_records payload
  if records.isEmpty then ({ st with totalResults := tr }, .stopped)
  else
    match normalizeBatch records with
    | .error e => ({ st with totalResults := tr }, .failed e)
    | .ok objs =>
      match atomicPersist st.store objs bs with
      | (s, .error e) => ({ st with store := s, totalResults := tr }, .failed e)
      | (store', .ok created) =>
        let start' := st.start + records.length
        ({ store := store'
           cp := { next_index := start'
                   total := if pyIsInt tr then some (pyToInt tr) else st.cp.total }
           start := start'
           totalResults := tr }, .imported created)

/-! ## Helper lemmas about the deduplicating persister -/

theorem storeIds_append (a b : List Rec) : storeIds (a ++ b) = storeIds a ++ storeIds b := by
  simp [storeIds]

theorem bulkCreate_ok_shape :
    ∀ (rows store s' : List Rec), bulkCreate store rows = .ok s' → s' = store ++ rows := by
  intro rows
  induction rows with
  | nil =>
    intro store s' h
    simp only [bulkCreate] at h
    injection h with h
    simp [h]
  | cons r rs ih =>
    intro store s' h
    simp only [bulkCreate] at h
    split at h
    · exact absurd h (by simp)
    · have := ih (store ++ [r]) s' h
      simp [this]

theorem bulkCreate_ok_of :
    ∀ (rows store : List Rec),
      (∀ r ∈ rows, r.cveChangeId ∉ storeIds store) →
      (rows.map (·.cveChangeId)).Nodup →
      bulkCreate store rows = .ok (store ++ rows) := by
  intro rows
  induction rows with
  | nil => intro store _ _; simp [bulkCreate]
  | cons r rs ih =>
    intro store hmem hnd
    have hr : r.cveChangeId ∉ storeIds store := hmem r (by simp)
    simp only [bulkCreate]
    rw [if_neg (by simpa using hr)]
    have hrs : ∀ x ∈ rs, x.cveChangeId ∉ storeIds (store ++ [r]) := by
      intro x hx
      rw [storeIds_append]
      simp only [List.mem_append]
      rintro (hc | hc)
      · exact hmem x (by simp [hx]) hc
      · simp only [storeIds, List.map_cons, List.map_nil, List.mem_singleton] at hc
        have hne : x.cveChangeId ∈ rs.map (·.cveChangeId) := List.mem_map_of_mem _ hx
        simp only [List.map_cons, List.nodup_cons] at hnd
        exact hnd.1 (hc ▸ hne)
    have := ih (store ++ [r]) hrs (by simp only [List.map_cons, List.nodup_cons] at hnd; exact hnd.2)
    simp [this]

theorem processChunk_ok_frame (store chunk s' : List Rec) (n : Nat)
    (h : processChunk store chunk = .ok (s', n)) : ∃ t, s' = store ++ t := by
  simp only [processChunk] at h
  split at h
  · injection h with h
    injection h with h1 h2
    exact ⟨[], by simp [← h1]⟩
  · split at h
    · exact absurd h (by simp)
    · rename_i s'' hbc
      injection h with h
      injection h with h1 h2
      subst h1
      exact ⟨_, bulkCreate_ok_shape _ _ _ hbc⟩

theorem processChunk_ok_mem (store chunk s' : List Rec) (n : Nat)
    (h : processChunk store chunk = .ok (s', n)) :
    ∀ o ∈ chunk, o.cveChangeId ∈ storeIds s' := by
  intro o ho
  by_cases hin : o.cveChangeId ∈ existingIds store chunk
  · have hs : o.cveChangeId ∈ storeIds store := (List.mem_filter.mp hin).1
    obtain ⟨t, rfl⟩ := processChunk_ok_frame store chunk s' n h
    rw [storeIds_append]
    exact List.mem_append_left _ hs
  · have hoc : o ∈ to_create store chunk := by
      simp only [to_create, List.mem_filter, Bool.not_eq_eq_eq_not, Bool.not_true,
        decide_eq_false_iff_not]
      exact ⟨ho, hin⟩
    simp only [processChunk] at h
    split at h
    · rename_i hemp
      rw [List.isEmpty_iff] at hemp
      rw [hemp] at hoc
      exact absurd hoc (by simp)
    · split at h
      · exact absurd h (by simp)
      · rename_i s'' hbc
        injection h with h
        injection h with h1 h2
        subst h1
        rw [bulkCreate_ok_shape _ _ _ hbc, storeIds_append]
        exact List.mem_append_right _ (List.mem_map_of_mem _ hoc)

theorem processChunk_all_existing (store chunk : List Rec)
    (hall : ∀ o ∈ chunk, truthy o.cveChangeId = true ∧ o.cveChangeId ∈ storeIds store) :
    processChunk store chunk = .ok (store, 0) := by
  have hempty : to_create store chunk = [] := by
    rw [to_create, List.filter_eq_nil_iff]
    intro o ho
    simp only [Bool.not_eq_eq_eq_not, Bool.not_true, decide_eq_false_iff_not, not_not]
    rw [existingIds, List.mem_filter]
    refine ⟨(hall o ho).2, ?_⟩
    simp only [decide_eq_true_eq]
    rw [chunk_ids]
    exact List.mem_map_of_mem _ (List.mem_filter.mpr ⟨ho, (hall o ho).1⟩)
  simp [processChunk, hempty]

theorem persistGo_ok_frame (bs : Nat) :
    ∀ (fuel : Nat) (objs store : List Rec) (acc n : Nat) (s' : List Rec),
      persistChunksGo bs fuel objs store acc = (s', .ok n) → ∃ t, s' = store ++ t := by
  intro fuel
  induction fuel with
  | zero =>
    intro objs store acc n s' h
    cases objs <;>
      · simp only [persistChunksGo] at h
        injection h with h1 h2
        exact ⟨[], by simp [← h1]⟩
  | succ fuel ih =>
    intro objs store acc n s' h
    cases objs with
    | nil =>
      simp only [persistChunksGo] at h
      injection h with h1 h2
      exact ⟨[], by simp [← h1]⟩
    | cons o os =>
      simp only [persistChunksGo] at h
      split at h
      · injection h with h1 h2
        exact absurd h2 (by simp)
      · rename_i s1 m hpc
        obtain ⟨t1, rfl⟩ := processChunk_ok_frame _ _ _ _ hpc
        obtain ⟨t2, rfl⟩ := ih _ _ _ _ _ h
        exact ⟨t1 ++ t2, by simp⟩

theorem persistGo_ok_mem (bs : Nat) (hbs : bs ≠ 0) :
    ∀ (fuel : Nat) (objs store : List Rec) (acc n : Nat) (s' : List Rec),
      objs.length ≤ fuel →
      persistChunksGo bs fuel objs store acc = (s', .ok n) →
      ∀ o ∈ objs, o.cveChangeId ∈ storeIds s' := by
  intro fuel
  induction fuel with
  | zero =>
    intro objs store acc n s' hlen h o ho
    rw [Nat.le_zero, List.length_eq_zero] at hlen
    subst hlen
    exact absurd ho (by simp)
  | succ fuel ih =>
    intro objs store acc n s' hlen h o ho
    cases objs with
    | nil => exact absurd ho (by simp)
    | cons o0 os =>
      simp only [persistChunksGo] at h
      split at h
      · injection h with h1 h2
        exact absurd h2 (by simp)
      · rename_i s1 m hpc
        rcases List.mem_append.mp ((List.take_append_drop bs (o0 :: os)) ▸ ho) with hmem | hmem
        · have h1 := processChunk_ok_mem _ _ _ _ hpc o hmem
          obtain ⟨t, rfl⟩ := persistGo_ok_frame bs _ _ _ _ _ _ h
          rw [storeIds_append]
          exact List.mem_append_left _ h1
        · refine ih _ _ _ _ _ ?_ h o hmem
          have hdl : ((o0 :: os).drop bs).length = (o0 :: os).length - bs := by
            simp
          have : (o0 :: os).length ≤ fuel + 1 := hlen
          rw [hdl]
          have hbs1 : 1 ≤ bs := Nat.one_le_iff_ne_zero.mpr hbs
          simp only [List.length_cons] at this ⊢
          omega

theorem persistGo_all_existing (bs : Nat) :
    ∀ (fuel : Nat) (objs store : List Rec) (acc : Nat),
      (∀ o ∈ objs, truthy o.cveChangeId = true ∧ o.cveChangeId ∈ storeIds store) →
      persistChunksGo bs fuel objs store acc = (store, .ok acc) := by
  intro fuel
  induction fuel with
  | zero => intro objs store acc _; cases objs <;> simp [persistChunksGo]
  | succ fuel ih =>
    intro objs store acc hall
    cases objs with
    | nil => simp [persistChunksGo]
    | cons o0 os =>
      have hpc : processChunk store ((o0 :: os).take bs) = .ok (store, 0) :=
        processChunk_all_existing _ _ (fun o ho => hall o (List.mem_of_mem_take ho))
      simp only [persistChunksGo, hpc]
      have := ih ((o0 :: os).drop bs) store acc
        (fun o ho => hall o (List.mem_of_mem_drop ho))
      simpa using this

/-! ## Helper lemmas about the normalizer -/

theorem sha1hex_ne_empty (msg : List Nat) : sha1hex msg ≠ "" := by
  rcases hsb : sha1blocks (1732584193, 4023233417, 2562383102, 271733878, 3285377520)
      (sha1pad msg) with ⟨a, b, c, d, e⟩
  rw [sha1hex, hsb]
  intro h
  have hd := congrArg String.data h
  simp [wordHex] at hd

theorem synth_truthy (change : Json) : truthy (.str (synthChangeId change)) = true := by
  have h : (synthChangeId change).isEmpty = false := by
    rw [Bool.eq_false_iff]
    intro he
    exact sha1hex_ne_empty _ ((String.isEmpty_iff _).mp he)
  simp [truthy, h]

theorem normalizeRecord_truthy_id (r : Json) (o : Rec)
    (h : normalizeRecord r = .ok (some o)) : truthy o.cveChangeId = true := by
  simp only [normalizeRecord] at h
  split at h <;>
  [skip; skip] <;>
  · split at h
    · exact absurd h (by simp)
    · split at h
      · exact absurd h (by simp)
      · injection h with h
        injection h with h
        subst h
        dsimp only
        split
        · assumption
        · exact synth_truthy _

theorem normalizeBatch_truthy_ids :
    ∀ (rs : List Json) (objs : List Rec), normalizeBatch rs = .ok objs →
      ∀ o ∈ objs, truthy o.cveChangeId = true := by
  intro rs
  induction rs with
  | nil =>
    intro objs h o ho
    simp only [normalizeBatch] at h
    injection h with h
    subst h
    exact absurd ho (by simp)
  | cons r rs ih =>
    intro objs h o ho
    simp only [normalizeBatch] at h
    split at h
    · exact absurd h (by simp)
    · exact ih objs h o ho
    · rename_i o0 hn0
      split at h
      · exact absurd h (by simp)
      · rename_i os hos
        injection h with h
        subst h
        rcases List.mem_cons.mp ho with rfl | hmem
        · exact normalizeRecord_truthy_id r o hn0
        · exact ih os hos o hmem

/-! ## Bridging lemmas for `atomicPersist` -/

theorem atomicPersist_ok_iff (store objs : List Rec) (bs : Nat) (s' : List Rec) (n : Nat) :
    atomicPersist store objs bs = (s', .ok n) ↔
      persistChunksRaw bs objs store 0 = (s', .ok n) := by
  rw [atomicPersist]
  rcases hr : persistChunksRaw bs objs store 0 with ⟨s1, r⟩
  cases r <;> simp

theorem atomicPersist_ok_bs_ne_zero (store objs : List Rec) (bs : Nat) (s' : List Rec)
    (n : Nat) (h : atomicPersist store objs bs = (s', .ok n)) : bs ≠ 0 := by
  intro hbs
  subst hbs
  rw [atomicPersist_ok_iff] at h
  simp [persistChunksRaw] at h

/-! ## Decomposition of a successfully imported page -/

theorem runPage_imported_elim (bs : Nat) (st : RunState) (p : List (String × Json))
    (st' : RunState) (c : Nat) (h : runPage bs st p = (st', .imported c)) :
    ∃ objs store',
      (extract_records p).isEmpty = false ∧
      normalizeBatch (extract_records p) = .ok objs ∧
      atomicPersist st.store objs bs = (store', .ok c) ∧
      st' = { store := store'
              cp := { next_index := st.start + (extract_records p).length
                      total := if pyIsInt (deriveTotal st.totalResults p) then
                          some (pyToInt (deriveTotal st.totalResults p)) else st.cp.total }
              start := st.start + (extract_records p).length
              totalResults := deriveTotal st.totalResults p } := by
  simp only [runPage] at h
  split at h
  · exact absurd (congrArg Prod.snd h) (by simp)
  · rename_i hne
    split at h
    · exact absurd (congrArg Prod.snd h) (by simp)
    · rename_i objs hn
      split at h
      · exact absurd (congrArg Prod.snd h) (by simp)
      · rename_i store' created hp
        have hsnd := congrArg Prod.snd h
        simp only [] at hsnd
        injection hsnd with hc
        have hfst := congrArg Prod.fst h
        simp only [] at hfst
        exact ⟨objs, store', by simpa using hne, hn, hc ▸ hp, hfst.symm⟩

theorem runPage_imported_intro (bs : Nat) (st : RunState) (p : List (String × Json))
    (objs store' : List Rec) (c : Nat)
    (hrec : (extract_records p).isEmpty = false)
    (hn : normalizeBatch (extract_records p) = .ok objs)
    (hp : atomicPersist st.store objs bs = (store', .ok c)) :
    runPage bs st p =
      ({ store := store'
         cp := { next_index := st.start + (extract_records p).length
                 total := if pyIsInt (deriveTotal st.totalResults p) then
                     some (pyToInt (deriveTotal st.totalResults p)) else st.cp.total }
         start := st.start + (extract_records p).length
         totalResults := deriveTotal st.totalResults p }, .imported c) := by
  simp only [runPage, hrec, hn, hp, Bool.false_eq_true, if_false]

/-! ## The claims -/

/-- C1.  Idempotent re-import: if processing a page from offset `st.start`
succeeds, processing the same page again from the same offset (with the rows
of the first run already stored) changes nothing: the stored row set is the
same as after one run, 0 rows are inserted, the reported imported count is
0, and the checkpoint advances to the same final offset and total. -/
theorem claim1_idempotent_reimport (bs : Nat) (st : RunState) (p : List (String × Json))
    (st' : RunState) (c : Nat) (h : runPage bs st p = (st', .imported c)) :
    runPage bs { store := st'.store, cp := st'.cp, start := st.start,
                 totalResults := st.totalResults } p = (st', .imported 0) := by
  obtain ⟨objs, store', hrec, hn, hp, rfl⟩ := runPage_imported_elim bs st p st' c h
  have hbs := atomicPersist_ok_bs_ne_zero _ _ _ _ _ hp
  have hraw := (atomicPersist_ok_iff _ _ _ _ _).mp hp
  rw [persistChunksRaw, if_neg hbs] at hraw
  have hmem : ∀ o ∈ objs, o.cveChangeId ∈ storeIds store' :=
    persistGo_ok_mem bs hbs objs.length objs st.store 0 c store' (le_refl _) hraw
  have htr : ∀ o ∈ objs, truthy o.cveChangeId = true := normalizeBatch_truthy_ids _ _ hn
  have hp2 : atomicPersist store' objs bs = (store', .ok 0) := by
    rw [atomicPersist_ok_iff, persistChunksRaw, if_neg hbs]
    exact persistGo_all_existing bs objs.length objs store' 0
      (fun o ho => ⟨htr o ho, hmem o ho⟩)
  have h2 := runPage_imported_intro bs
    { store := store'
      cp := { next_index := st.start + (extract_records p).length
              total := if pyIsInt (deriveTotal st.totalResults p) then
                  some (pyToInt (deriveTotal st.totalResults p)) else st.cp.total }
      start := st.start
      totalResults := st.totalResults } p objs store' 0 hrec hn hp2
  rw [h2]
  by_cases hint : pyIsInt (deriveTotal st.totalResults p) = true <;> simp [hint]

/-- C2.  No checkpoint advance on persistence failure: when the page's
records normalize but the database insert step raises, the run state keeps
the stored rows, the stored checkpoint (`next_index` and `total`) and the
offset exactly as they were, and the error is propagated. -/
theorem claim2_no_advance_on_failure (bs : Nat) (st : RunState)
    (p : List (String × Json)) (objs : List Rec) (e : RuntimeError)
    (hrec : (extract_records p).isEmpty = false)
    (hn : normalizeBatch (extract_records p) = .ok objs)
    (hp : (persistChunksRaw bs objs st.store 0).2 = .error e) :
    (runPage bs st p).1.cp = st.cp ∧
    (runPage bs st p).1.store = st.store ∧
    (runPage bs st p).1.start = st.start ∧
    (runPage bs st p).2 = .failed e := by
  have hap : atomicPersist st.store objs bs = (st.store, .error e) := by
    rw [atomicPersist]
    rcases hr : persistChunksRaw bs objs st.store 0 with ⟨s1, r⟩
    rw [hr] at hp
    simp only [] at hp
    subst hp
    rfl
  simp only [runPage, hrec, Bool.false_eq_true, if_false, hn, hap]
  exact ⟨trivial, trivial, trivial, trivial⟩

/-- C3.  Checkpoint monotonicity: after a successfully persisted page, the
stored checkpoint's `next_index` is exactly its value before the page plus
the number of raw records fetched on that page, regardless of how many were
skipped as duplicates during persistence or as non-mappings during
normalization. -/
theorem claim3_checkpoint_monotonicity (bs : Nat) (st : RunState)
    (p : List (String × Json)) (st' : RunState) (c : Nat)
    (hsync : st.cp.next_index = st.start)
    (h : runPage bs st p = (st', .imported c)) :
    st'.cp.next_index = st.cp.next_index + (extract_records p).length := by
  obtain ⟨objs, store', -, -, -, rfl⟩ := runPage_imported_elim bs st p st' c h
  simp [hsync]

/-- C4.  Per-page persistence is atomic across all sub-batches: the batch
transaction either commits every row written by every sub-batch (the final
store of the chunk loop, an extension of the original store), or, when any
sub-batch insert fails, commits nothing, leaving the stored rows exactly as
they were before the batch. -/
theorem claim4_batch_atomicity (store objs : List Rec) (bs : Nat) :
    (∀ s' n, persistChunksRaw bs objs store 0 = (s', .ok n) →
      atomicPersist store objs bs = (s', .ok n) ∧ ∃ t, s' = store ++ t) ∧
    (∀ s' e, persistChunksRaw bs objs store 0 = (s', .error e) →
      atomicPersist store objs bs = (store, .error e)) := by
  constructor
  · intro s' n h
    refine ⟨by rw [atomicPersist_ok_iff]; exact h, ?_⟩
    by_cases hbs : bs = 0
    · rw [persistChunksRaw, if_pos hbs] at h
      injection h with h1 h2
      exact absurd h2 (by simp)
    · rw [persistChunksRaw, if_neg hbs] at h
      exact persistGo_ok_frame bs objs.length objs store 0 n s' h
  · intro s' e h
    rw [atomicPersist, h]

/-! ## Characterization of persistence on batches with distinct ids -/

theorem to_create_of_truthy (store chunk : List Rec)
    (htr : ∀ o ∈ chunk, truthy o.cveChangeId = true) :
    to_create store chunk =
      chunk.filter (fun o => !decide (o.cveChangeId ∈ storeIds store)) := by
  rw [to_create]
  apply List.filter_congr
  intro o ho
  have hcid : o.cveChangeId ∈ chunk_ids chunk := by
    rw [chunk_ids]
    exact List.mem_map_of_mem _ (List.mem_filter.mpr ⟨ho, htr o ho⟩)
  by_cases hs : o.cveChangeId ∈ storeIds store
  · have : o.cveChangeId ∈ existingIds store chunk :=
      List.mem_filter.mpr ⟨hs, by simpa using hcid⟩
    simp [this, hs]
  · have : o.cveChangeId ∉ existingIds store chunk := by
      rw [existingIds]
      intro hmem
      exact hs (List.mem_filter.mp hmem).1
    simp [this, hs]

theorem processChunk_fresh (store chunk : List Rec)
    (htr : ∀ o ∈ chunk, truthy o.cveChangeId = true)
    (hnd : (chunk.map (·.cveChangeId)).Nodup) :
    processChunk store chunk =
      .ok (store ++ chunk.filter (fun o => !decide (o.cveChangeId ∈ storeIds store)),
        (chunk.filter (fun o => !decide (o.cveChangeId ∈ storeIds store))).length) := by
  have htc := to_create_of_truthy store chunk htr
  rw [processChunk, htc]
  by_cases hemp :
      (chunk.filter (fun o => !decide (o.cveChangeId ∈ storeIds store))).isEmpty = true
  · rw [List.isEmpty_iff] at hemp
    rw [hemp]
    simp
  · rw [if_neg hemp]
    have hnotin : ∀ o ∈ chunk.filter (fun o => !decide (o.cveChangeId ∈ storeIds store)),
        o.cveChangeId ∉ storeIds store := by
      intro o ho
      have := (List.mem_filter.mp ho).2
      simpa using this
    have hndf : ((chunk.filter (fun o => !decide (o.cveChangeId ∈ storeIds store))).map
        (·.cveChangeId)).Nodup :=
      hnd.sublist (List.Sublist.map _ (List.filter_sublist _))
    have hbc := bulkCreate_ok_of _ store hnotin hndf
    rw [hbc]

theorem persistGo_fresh (bs : Nat) (hbs : bs ≠ 0) :
    ∀ (fuel : Nat) (objs store : List Rec) (acc : Nat),
      objs.length ≤ fuel →
      (∀ o ∈ objs, truthy o.cveChangeId = true) →
      (objs.map (·.cveChangeId)).Nodup →
      persistChunksGo bs fuel objs store acc =
        (store ++ objs.filter (fun o => !decide (o.cveChangeId ∈ storeIds store)),
         .ok (acc + (objs.filter (fun o => !decide (o.cveChangeId ∈ storeIds store))).length)) := by
  intro fuel
  induction fuel with
  | zero =>
    intro objs store acc hlen _ _
    rw [Nat.le_zero, List.length_eq_zero] at hlen
    subst hlen
    simp [persistChunksGo]
  | succ fuel ih =>
    intro objs store acc hlen htr hnd
    cases objs with
    | nil => simp [persistChunksGo]
    | cons o0 os =>
      have hsplit : (o0 :: os).take bs ++ (o0 :: os).drop bs = o0 :: os :=
        List.take_append_drop bs (o0 :: os)
      have htrT : ∀ o ∈ (o0 :: os).take bs, truthy o.cveChangeId = true :=
        fun o ho => htr o (List.mem_of_mem_take ho)
      have hndT : (((o0 :: os).take bs).map (·.cveChangeId)).Nodup :=
        hnd.sublist (List.Sublist.map _ (List.take_sublist _ _))
      have hpc := processChunk_fresh store ((o0 :: os).take bs) htrT hndT
      simp only [persistChunksGo, hpc]
      have hlen' : ((o0 :: os).drop bs).length ≤ fuel := by
        have hbs1 : 1 ≤ bs := Nat.one_le_iff_ne_zero.mpr hbs
        simp only [List.length_drop, List.length_cons] at *
        omega
      have htrD : ∀ o ∈ (o0 :: os).drop bs, truthy o.cveChangeId = true :=
        fun o ho => htr o (List.mem_of_mem_drop ho)
      have hndD : (((o0 :: os).drop bs).map (·.cveChangeId)).Nodup :=
        hnd.sublist (List.Sublist.map _ (List.drop_sublist _ _))
      rw [ih _ _ _ hlen' htrD hndD]
      -- the drop part is filtered against the grown store; its members' ids
      -- are disjoint from the take part's ids, so the filter is unchanged
      have hdisj : ∀ o ∈ (o0 :: os).drop bs,
          o.cveChangeId ∉ (((o0 :: os).take bs).filter
            (fun o => !decide (o.cveChangeId ∈ storeIds store))).map (·.cveChangeId) := by
        intro o ho hmem
        have hmem' : o.cveChangeId ∈ ((o0 :: os).take bs).map (·.cveChangeId) := by
          obtain ⟨x, hx, hxe⟩ := List.mem_map.mp hmem
          exact List.mem_map.mpr ⟨x, (List.mem_filter.mp hx).1, hxe⟩
        have hmem2 : o.cveChangeId ∈ ((o0 :: os).drop bs).map (·.cveChangeId) :=
          List.mem_map_of_mem _ ho
        have : ((o0 :: os).map (·.cveChangeId)).Nodup := hnd
        rw [← hsplit, List.map_append, List.nodup_append] at this
        exact this.2.2 hmem' hmem2
      have hfilter : ((o0 :: os).drop bs).filter
            (fun o => !decide (o.cveChangeId ∈ storeIds (store ++ ((o0 :: os).take bs).filter
              (fun o => !decide (o.cveChangeId ∈ storeIds store))))) =
          ((o0 :: os).drop bs).filter
            (fun o => !decide (o.cveChangeId ∈ storeIds store)) := by
        apply List.filter_congr
        intro o ho
        rw [storeIds_append]
        have hno := hdisj o ho
        by_cases hs : o.cveChangeId ∈ storeIds store
        · simp [hs]
        · have hnotapp : o.cveChangeId ∉ storeIds store ++
              storeIds (((o0 :: os).take bs).filter
                (fun o => !decide (o.cveChangeId ∈ storeIds store))) := by
            rw [List.mem_append]
            rintro (hc | hc)
            · exact hs hc
            · exact hno (by simpa [storeIds] using hc)
          simp [hnotapp, hs]
      rw [hfilter]
      have hfsplit : (o0 :: os).filter (fun o => !decide (o.cveChangeId ∈ storeIds store)) =
          ((o0 :: os).take bs).filter (fun o => !decide (o.cveChangeId ∈ storeIds store)) ++
          ((o0 :: os).drop bs).filter (fun o => !decide (o.cveChangeId ∈ storeIds store)) := by
        rw [← List.filter_append, hsplit]
      rw [hfsplit]
      simp [Nat.add_assoc]

/-- C6 (amended).  For a batch of rows with truthy, pairwise-distinct
`cveChangeId`s, persistence succeeds, skips exactly the rows whose id is
already stored, returns the number of newly inserted rows, and preserves
uniqueness of `cveChangeId` across the store. -/
theorem claim6_dedup_persistence (store objs : List Rec) (bs : Nat) (hbs : bs ≠ 0)
    (htr : ∀ o ∈ objs, truthy o.cveChangeId = true)
    (hnd : (objs.map (·.cveChangeId)).Nodup) :
    atomicPersist store objs bs =
      (store ++ objs.filter (fun o => !decide (o.cveChangeId ∈ storeIds store)),
       .ok (objs.filter (fun o => !decide (o.cveChangeId ∈ storeIds store))).length) ∧
    ((storeIds store).Nodup →
      (storeIds (store ++ objs.filter
        (fun o => !decide (o.cveChangeId ∈ storeIds store)))).Nodup) := by
  constructor
  · rw [atomicPersist_ok_iff, persistChunksRaw, if_neg hbs]
    simpa using persistGo_fresh bs hbs objs.length objs store 0 (le_refl _) htr hnd
  · intro hstore
    rw [storeIds_append, List.nodup_append]
    refine ⟨hstore, hnd.sublist (List.Sublist.map _ (List.filter_sublist _)), ?_⟩
    intro x hx hx2
    obtain ⟨o, ho, rfl⟩ := List.mem_map.mp hx2
    have := (List.mem_filter.mp ho).2
    simp only [Bool.not_eq_eq_eq_not, Bool.not_true, decide_eq_false_iff_not] at this
    exact this hx

/-- C6 counterexample: a batch whose two rows share one fresh `cveChangeId`
makes the persist step raise a uniqueness error instead of skipping the
duplicate, so the claim as stated (no batch ever raises) is false. -/
theorem claim6_counterexample :
    atomicPersist []
      [{ cveId := Json.str "CVE-1", eventName := Json.null, cveChangeId := Json.str "dup",
         sourceIdentifier := Json.null, created := none, details := none },
       { cveId := Json.str "CVE-2", eventName := Json.null, cveChangeId := Json.str "dup",
         sourceIdentifier := Json.null, created := none, details := none }] 1000 =
      ([], .error .integrityError) := by
  decide

/-! ## Concrete fixtures used by the witnesses -/

/-- An upstream record in the documented `\x7b"change": \x7b...\x7d\x7d` shape. -/
def wChange : Json :=
  Json.obj [("change", Json.obj [("cveId", Json.str "CVE-2024-0001"),
    ("eventName", Json.str "Added"), ("cveChangeId", Json.str "abc123")])]

def wPage : List (String × Json) :=
  [("vulnerabilities", Json.arr [wChange]), ("totalResults", Json.num 1)]

def wRow : Rec :=
  { cveId := Json.str "CVE-2024-0001", eventName := Json.str "Added",
    cveChangeId := Json.str "abc123", sourceIdentifier := Json.null,
    created := none, details := none }

def wSt0 : RunState :=
  { store := [], cp := { next_index := 0, total := none }, start := 0,
    totalResults := Json.null }

def wSt1 : RunState :=
  { store := [wRow], cp := { next_index := 1, total := some 1 }, start := 1,
    totalResults := Json.num 1 }

/-- Rows sharing one `cveChangeId` (an upstream page repeating a change). -/
def wDupPage : List (String × Json) :=
  [("vulnerabilities", Json.arr
    [Json.obj [("cveId", Json.str "CVE-1"), ("cveChangeId", Json.str "dup")],
     Json.obj [("cveId", Json.str "CVE-2"), ("cveChangeId", Json.str "dup")]])]

def wRowDup1 : Rec :=
  { cveId := Json.str "CVE-1", eventName := Json.null, cveChangeId := Json.str "dup",
    sourceIdentifier := Json.null, created := none, details := none }

def wRowDup2 : Rec := { wRowDup1 with cveId := Json.str "CVE-2" }

def wRowOf (cve id : String) : Rec :=
  { cveId := Json.str cve, eventName := Json.null, cveChangeId := Json.str id,
    sourceIdentifier := Json.null, created := none, details := none }

/-- Four rows where the second sub-batch (batch size 2) contains a repeated
fresh id and therefore fails after the first sub-batch already inserted. -/
def wBatch4 : List Rec :=
  [wRowOf "CVE-a" "ida", wRowOf "CVE-b" "idb", wRowOf "CVE-c" "idc", wRowOf "CVE-d" "idc"]

theorem claim1_witness :
    runPage 1000 { store := wSt1.store, cp := wSt1.cp, start := wSt0.start,
                   totalResults := wSt0.totalResults } wPage = (wSt1, .imported 0) :=
  claim1_idempotent_reimport 1000 wSt0 wPage wSt1 1 (by decide)

theorem claim2_witness :
    (runPage 1000 wSt0 wDupPage).1.cp = wSt0.cp ∧
    (runPage 1000 wSt0 wDupPage).1.store = wSt0.store ∧
    (runPage 1000 wSt0 wDupPage).1.start = wSt0.start ∧
    (runPage 1000 wSt0 wDupPage).2 = .failed .integrityError :=
  claim2_no_advance_on_failure 1000 wSt0 wDupPage [wRowDup1, wRowDup2] .integrityError
    (by decide) (by decide) (by decide)

theorem claim3_witness :
    wSt1.cp.next_index = wSt0.cp.next_index + (extract_records wPage).length :=
  claim3_checkpoint_monotonicity 1000 wSt0 wPage wSt1 1 (by decide) (by decide)

theorem claim4_witness :
    atomicPersist [] wBatch4 2 = ([], .error .integrityError) ∧
    (persistChunksRaw 2 wBatch4 [] 0).1 = [wRowOf "CVE-a" "ida", wRowOf "CVE-b" "idb"] :=
  ⟨(claim4_batch_atomicity [] wBatch4 2).2 [wRowOf "CVE-a" "ida", wRowOf "CVE-b" "idb"]
      .integrityError (by decide),
    by decide⟩

theorem claim6_witness :
    atomicPersist [wRow] [wRowDup1, wRowOf "CVE-x" "abc123"] 1000 =
      ([wRow, wRowDup1], .ok 1) :=
  (claim6_dedup_persistence [wRow] [wRowDup1, wRowOf "CVE-x" "abc123"] 1000
    (by decide) (by decide) (by decide)).1

/-- C7.  The normalizer is not total on arbitrary mappings: a record whose
`created` field holds a truthy non-string (here the number 1) makes the
unguarded `parse_datetime(created_raw)` call at line 167 raise `TypeError`,
which escapes the normalization loop. -/
theorem claim7_normalizer_raises :
    normalizeRecord (Json.obj [("created", Json.num 1)]) = .error .typeError := by
  decide

/-- C8 counterexample: when a change mapping carries both a nested `cve.id`
and a direct `cveId`, line 159 returns the direct `cveId` — the nested
`cve.id` does not win. -/
theorem claim8_counterexample :
    extract_cveId (Json.obj [("cve", Json.obj [("id", Json.str "CVE-NESTED")]),
      ("cveId", Json.str "CVE-DIRECT")]) = Json.str "CVE-DIRECT" ∧
    jget (jget (Json.obj [("cve", Json.obj [("id", Json.str "CVE-NESTED")]),
      ("cveId", Json.str "CVE-DIRECT")]) "cve") "id" = Json.str "CVE-NESTED" := by
  constructor <;> decide

/-- The amended priority order for the extracted vulnerability id, stated
in the spec's style: (a) the direct `cveId` field, (b) nested `cve.id`,
(c) legacy nested `cve.CVE_data_meta.ID`, (d) generic `id` then `name`,
(e) the sentinel `"unknown"` — first truthy match wins. -/
def cveId_priority (change : Json) : Json :=
  if truthy (jget change "cveId") then jget change "cveId"
  else if isDict (jget change "cve") && truthy (jget (jget change "cve") "id") then
    jget (jget change "cve") "id"
  else if isDict (jget change "cve") &&
      (isDict (jget (jget change "cve") "CVE_data_meta") &&
        truthy (jget (jget (jget change "cve") "CVE_data_meta") "ID")) then
    jget (jget (jget change "cve") "CVE_data_meta") "ID"
  else if truthy (jget change "id") then jget change "id"
  else if truthy (jget change "name") then jget change "name"
  else .str "unknown"

/-- A falsy value is either not a dict or the empty dict, so guarded key
access under it yields a falsy value. -/
theorem falsy_dict_get (v : Json) (k : String) (hv : truthy v = false) :
    (isDict v && truthy (jget v k)) = false := by
  rcases v with _ | b | n | s | xs | fs
  · rfl
  · rfl
  · rfl
  · rfl
  · rfl
  · have hfs : fs = [] := by simpa [truthy, List.isEmpty_iff] using hv
    subst hfs
    rfl

theorem falsy_dict_get2 (v : Json) (k k2 : String) (hv : truthy v = false) :
    (isDict v && (isDict (jget v k) && truthy (jget (jget v k) k2))) = false := by
  rcases v with _ | b | n | s | xs | fs
  · rfl
  · rfl
  · rfl
  · rfl
  · rfl
  · have hfs : fs = [] := by simpa [truthy, List.isEmpty_iff] using hv
    subst hfs
    rfl

/-- C8 (amended).  The id extracted at line 159 follows the priority
direct `cveId` > nested `cve.id` > legacy `cve.CVE_data_meta.ID` >
generic `id`/`name` > `"unknown"`. -/
theorem claim8_cveId_priority (change : Json) :
    extract_cveId change = cveId_priority change := by
  rw [extract_cveId, cveId_priority, find_cveId]
  by_cases h1 : truthy (jget change "cveId") = true
  · simp [pyOr, h1]
  · simp only [pyOr, if_neg h1]
    by_cases h2 : (isDict (jget change "cve") && truthy (jget (jget change "cve") "id")) = true
    · simp only [if_pos h2]
    · simp only [if_neg h2]
      by_cases h3 : truthy (jget change "cve") = true
      · simp only [if_pos h3]
        by_cases h4 : truthy (jget (jget change "cve") "CVE_data_meta") = true
        · simp only [if_pos h4]
        · simp only [if_neg h4]
          have hrhs := falsy_dict_get (jget (jget change "cve") "CVE_data_meta") "ID"
            (by simpa using h4)
          have hlhs : truthy (jget (Json.obj []) "ID") = false := rfl
          simp [hlhs, hrhs]
      · simp only [if_neg h3]
        have hrhs := falsy_dict_get2 (jget change "cve") "CVE_data_meta" "ID"
          (by simpa using h3)
        have h5 : jget (Json.obj []) "CVE_data_meta" = Json.null := rfl
        have h6 : truthy Json.null = false := rfl
        have h7 : jget (Json.obj []) "ID" = Json.null := rfl
        simp [h5, h6, h7, hrhs]

/-! ## Same-mapping relation and determinism of the synthesized changeId

`Json.sameMapN n a b` holds when `a` and `b` decode the same JSON data up
to reordering of object keys: scalars and array structure agree exactly,
and at every object both key sets are duplicate-free and each field of one
is matched by key in the other with a related value.  `n` is recursion
fuel; any sufficiently large fuel (e.g. the nesting depth) witnesses the
relation. -/

def Json.sameMapN : Nat → Json → Json → Bool
  | 0, _, _ => false
  | n + 1, .arr xs, .arr ys =>
    xs.length == ys.length && (xs.zip ys).all (fun p => Json.sameMapN n p.1 p.2)
  | n + 1, .obj fs, .obj gs =>
    decide ((fs.map Prod.fst).Nodup) && decide ((gs.map Prod.fst).Nodup) &&
    (fs.length == gs.length) &&
    fs.all (fun p =>
      match gs.lookup p.1 with
      | some w => Json.sameMapN n p.2 w
      | none => false)
  | _ + 1, a, b => Json.beq a b

/-- The sortedness invariant produced by `sortFields`. -/
def SortedKeys (l : List (String × Json)) : Prop :=
  List.Pairwise (fun p q => p.1 ≤ q.1) l

theorem insertField_perm (p : String × Json) :
    ∀ l : List (String × Json), (insertField p l).Perm (p :: l) := by
  intro l
  induction l with
  | nil => rfl
  | cons q qs ih =>
    rw [insertField]
    split
    · rfl
    · exact (ih.cons q).trans (List.Perm.swap p q qs)

theorem sortFields_perm : ∀ l : List (String × Json), (sortFields l).Perm l := by
  intro l
  induction l with
  | nil => rfl
  | cons p ps ih => exact (insertField_perm p (sortFields ps)).trans (ih.cons p)

theorem insertField_sorted (p : String × Json) :
    ∀ l : List (String × Json), SortedKeys l → SortedKeys (insertField p l) := by
  intro l
  induction l with
  | nil => intro _; exact List.pairwise_singleton _ _
  | cons q qs ih =>
    intro hs
    obtain ⟨hq, hqs⟩ := List.pairwise_cons.mp hs
    rw [insertField]
    split
    · rename_i hle
      exact List.pairwise_cons.mpr ⟨by
        intro x hx
        rcases List.mem_cons.mp hx with rfl | hx
        · exact hle
        · exact le_trans hle (hq x hx), hs⟩
    · rename_i hnle
      have hqp : q.1 ≤ p.1 := le_of_not_le hnle
      refine List.pairwise_cons.mpr ⟨?_, ih hqs⟩
      intro x hx
      have hx' : x ∈ p :: qs := (insertField_perm p qs).subset hx
      rcases List.mem_cons.mp hx' with rfl | hx'
      · exact hqp
      · exact hq x hx'

theorem sortFields_sorted : ∀ l : List (String × Json), SortedKeys (sortFields l) := by
  intro l
  induction l with
  | nil => exact List.Pairwise.nil
  | cons p ps ih => exact insertField_sorted p (sortFields ps) ih

/-- Two key-sorted association lists with the same entries (up to order)
and duplicate-free keys are equal. -/
theorem sorted_nodupkeys_perm_eq :
    ∀ l1 l2 : List (String × Json), l1.Perm l2 → SortedKeys l1 → SortedKeys l2 →
      (l1.map Prod.fst).Nodup → l1 = l2 := by
  intro l1
  induction l1 with
  | nil =>
    intro l2 hp _ _ _
    exact (hp.symm.eq_nil).symm
  | cons p t ih =>
    intro l2 hp hs1 hs2 hnd
    have hpmem : p ∈ l2 := hp.subset (by simp)
    cases l2 with
    | nil => exact absurd hpmem (by simp)
    | cons q t2 =>
      have hq : q = p := by
        have hqmem : q ∈ p :: t := hp.symm.subset (by simp)
        rcases List.mem_cons.mp hqmem with h | hqt
        · exact h
        · have h1 : p.1 ≤ q.1 := (List.pairwise_cons.mp hs1).1 q hqt
          rcases List.mem_cons.mp hpmem with h | hpt2
          · exact h.symm
          · have h2 : q.1 ≤ p.1 := (List.pairwise_cons.mp hs2).1 p hpt2
            have hkey : q.1 = p.1 := le_antisymm h2 h1
            have hmemk : q.1 ∈ t.map Prod.fst := List.mem_map_of_mem _ hqt
            rw [hkey] at hmemk
            simp only [List.map_cons, List.nodup_cons] at hnd
            exact absurd hmemk hnd.1
      subst hq
      have hp' : t.Perm t2 := (List.perm_cons q).mp hp
      have ht : t = t2 :=
        ih t2 hp' (List.pairwise_cons.mp hs1).2 (List.pairwise_cons.mp hs2).2
          (by simp only [List.map_cons, List.nodup_cons] at hnd; exact hnd.2)
      rw [ht]

/-- Total lookup in an association list (`None` becomes `Json.null`). -/
def lgetD (l : List (String × Json)) (k : String) : Json :=
  (l.lookup k).getD Json.null

theorem lookup_some_mem_keys :
    ∀ (l : List (String × Json)) (k : String) (w : Json),
      l.lookup k = some w → k ∈ l.map Prod.fst := by
  intro l
  induction l with
  | nil => intro k w h; simp [List.lookup] at h
  | cons p t ih =>
    intro k w h
    rw [List.lookup] at h
    split at h
    · rename_i hbeq
      simp only [List.map_cons, List.mem_cons]
      exact Or.inl (eq_of_beq hbeq)
    · exact List.mem_cons.mpr (Or.inr (ih k w h))

/-- A duplicate-key-free association list is determined by its key list
and its lookup function. -/
theorem assoc_eq_keymap :
    ∀ l : List (String × Json), (l.map Prod.fst).Nodup →
      l = (l.map Prod.fst).map (fun k => (k, lgetD l k)) := by
  intro l
  induction l with
  | nil => intro _; rfl
  | cons p t ih =>
    intro hnd
    obtain ⟨k, v⟩ := p
    simp only [List.map_cons, List.nodup_cons] at hnd
    simp only [List.map_cons]
    have hhead : lgetD ((k, v) :: t) k = v := by
      simp [lgetD, List.lookup]
    rw [hhead]
    have htail : (t.map Prod.fst).map (fun k' => (k', lgetD ((k, v) :: t) k')) =
        (t.map Prod.fst).map (fun k' => (k', lgetD t k')) := by
      apply List.map_congr_left
      intro k' hk'
      have hne : (k' == k) = false := by
        rw [beq_eq_false_iff_ne]
        intro he
        exact hnd.1 (he ▸ hk')
      simp [lgetD, List.lookup, hne]
    rw [htail, ← ih hnd.2]

theorem canonFields_eq_map :
    ∀ l : List (String × Json), Json.canonFields l = l.map (fun p => (p.1, Json.canon p.2)) := by
  intro l
  induction l with
  | nil => rfl
  | cons p t ih =>
    obtain ⟨k, v⟩ := p
    simp only [Json.canonFields, List.map_cons, ih]

theorem canonFields_keys (l : List (String × Json)) :
    (Json.canonFields l).map Prod.fst = l.map Prod.fst := by
  rw [canonFields_eq_map, List.map_map]
  rfl

theorem lookup_canonFields :
    ∀ (l : List (String × Json)) (k : String),
      (Json.canonFields l).lookup k = (l.lookup k).map Json.canon := by
  intro l
  induction l with
  | nil => intro k; rfl
  | cons p t ih =>
    intro k
    obtain ⟨k', v⟩ := p
    simp only [Json.canonFields, List.lookup]
    split <;> simp [ih]

theorem canonArr_congr (n : Nat)
    (ih : ∀ a b : Json, Json.sameMapN n a b = true → Json.canon a = Json.canon b) :
    ∀ xs ys : List Json, xs.length = ys.length →
      (∀ p ∈ xs.zip ys, Json.sameMapN n p.1 p.2 = true) →
      Json.canonArr xs = Json.canonArr ys := by
  intro xs
  induction xs with
  | nil =>
    intro ys hlen _
    cases ys with
    | nil => rfl
    | cons y ys => simp at hlen
  | cons x xs ihl =>
    intro ys hlen hall
    cases ys with
    | nil => simp at hlen
    | cons y ys =>
      simp only [Json.canonArr]
      rw [ih x y (hall (x, y) (by simp)),
        ihl ys (by simpa using hlen) (fun p hp => hall p (by simp [hp]))]

theorem canonObj_congr (n : Nat)
    (ih : ∀ a b : Json, Json.sameMapN n a b = true → Json.canon a = Json.canon b)
    (fs gs : List (String × Json))
    (hndf : (fs.map Prod.fst).Nodup) (hndg : (gs.map Prod.fst).Nodup)
    (hlen : fs.length = gs.length)
    (hall : ∀ p ∈ fs, ∃ w, gs.lookup p.1 = some w ∧ Json.sameMapN n p.2 w = true) :
    sortFields (Json.canonFields fs) = sortFields (Json.canonFields gs) := by
  have hsub : fs.map Prod.fst ⊆ gs.map Prod.fst := by
    intro k hk
    obtain ⟨p, hp, rfl⟩ := List.mem_map.mp hk
    obtain ⟨w, hw, -⟩ := hall p hp
    exact lookup_some_mem_keys _ _ _ hw
  have hkeys : (fs.map Prod.fst).Perm (gs.map Prod.fst) :=
    (List.subperm_of_subset hndf hsub).perm_of_length_le (by simp [hlen])
  have hF : Json.canonFields fs =
      (fs.map Prod.fst).map (fun k => (k, lgetD (Json.canonFields gs) k)) := by
    rw [canonFields_eq_map]
    have step2 : fs.map (fun p => (p.1, Json.canon p.2)) =
        fs.map (fun p => (p.1, lgetD (Json.canonFields gs) p.1)) := by
      apply List.map_congr_left
      intro p hp
      obtain ⟨w, hw, hsm⟩ := hall p hp
      have hlk : (Json.canonFields gs).lookup p.1 = some (Json.canon w) := by
        rw [lookup_canonFields, hw]
        rfl
      rw [lgetD, hlk]
      simp [ih p.2 w hsm]
    rw [step2, List.map_map]
    rfl
  have hG : Json.canonFields gs =
      (gs.map Prod.fst).map (fun k => (k, lgetD (Json.canonFields gs) k)) := by
    have h := assoc_eq_keymap (Json.canonFields gs) (by rw [canonFields_keys]; exact hndg)
    rw [canonFields_keys] at h
    exact h
  have hperm : (Json.canonFields fs).Perm (Json.canonFields gs) := by
    rw [hF]
    conv_rhs => rw [hG]
    exact hkeys.map _
  apply sorted_nodupkeys_perm_eq
  · exact (sortFields_perm _).trans (hperm.trans (sortFields_perm _).symm)
  · exact sortFields_sorted _
  · exact sortFields_sorted _
  · have hpk : ((sortFields (Json.canonFields fs)).map Prod.fst).Perm
        ((Json.canonFields fs).map Prod.fst) := (sortFields_perm _).map _
    refine hpk.nodup_iff.mpr ?_
    rw [canonFields_keys]
    exact hndf

/-- Values related by `sameMapN` have equal canonical forms. -/
theorem sameMapN_canon :
    ∀ (n : Nat) (a b : Json), Json.sameMapN n a b = true → Json.canon a = Json.canon b := by
  intro n
  induction n with
  | zero =>
    intro a b h
    simp [Json.sameMapN] at h
  | succ n ihn =>
    intro a b h
    cases a <;> cases b <;>
      try exact congrArg Json.canon ((Json.beq_iff_eq _ _).mp h)
    case arr.arr xs ys =>
      simp only [Json.sameMapN, Bool.and_eq_true, beq_iff_eq, List.all_eq_true] at h
      obtain ⟨hlen, hall⟩ := h
      simp only [Json.canon]
      rw [canonArr_congr n ihn xs ys hlen hall]
    case obj.obj fs gs =>
      simp only [Json.sameMapN, Bool.and_eq_true, beq_iff_eq, List.all_eq_true,
        decide_eq_true_eq] at h
      obtain ⟨⟨⟨hndf, hndg⟩, hlen⟩, hall⟩ := h
      have hall' : ∀ p ∈ fs, ∃ w, gs.lookup p.1 = some w ∧ Json.sameMapN n p.2 w = true := by
        intro p hp
        have := hall p hp
        rcases hw : gs.lookup p.1 with _ | w
        · rw [hw] at this
          simp at this
        · rw [hw] at this
          exact ⟨w, rfl, this⟩
      simp only [Json.canon]
      rw [canonObj_congr n ihn fs gs hndf hndg hlen hall']

/-- C5.  Deterministic changeId derivation: two serializations of the same
raw change mapping that differ only in object key order (at any nesting
level) synthesize the same changeId — the SHA-1 of the key-sorted
canonical JSON serialization depends only on the mapping. -/
theorem claim5_deterministic_changeId (n : Nat) (c1 c2 : Json)
    (h : Json.sameMapN n c1 c2 = true) :
    synthChangeId c1 = synthChangeId c2 := by
  rw [synthChangeId, synthChangeId, Json.dumps, Json.dumps, sameMapN_canon n c1 c2 h]

/-- One change mapping serialized with two different key orders, including
inside the nested `details` object. -/
def wPerm1 : Json :=
  Json.obj [("eventName", Json.str "Added"), ("cveId", Json.str "CVE-1"),
    ("details", Json.obj [("b", Json.num 1), ("a", Json.str "x")])]

def wPerm2 : Json :=
  Json.obj [("cveId", Json.str "CVE-1"),
    ("details", Json.obj [("a", Json.str "x"), ("b", Json.num 1)]),
    ("eventName", Json.str "Added")]

theorem claim5_witness : synthChangeId wPerm1 = synthChangeId wPerm2 :=
  claim5_deterministic_changeId 5 wPerm1 wPerm2 (by decide)

/-! ## HTTP fetch and retry (make_session, lines 20-32; handle, lines 108-129) -/

inductive FetchFail where
  /-- urllib3 `MaxRetryError`, surfaced by requests as `RetryError`. -/
  | retryError
  /-- connection failure with no further response. -/
  | connectionError
deriving DecidableEq

/-- The `status_forcelist` of the `Retry` configured in `make_session`
(line 25).  It contains 429. -/
def statusForcelist : List Nat := [429, 500, 502, 503, 504]

/-- The urllib3 `Retry` behavior of the session adapter, modelled from the
library's documented semantics with the configuration of lines 20-32: a
response whose status is in the forcelist is retried internally (consuming
one of the bounded retries, with exponential backoff); when the retries are
exhausted the request raises (`raise_on_status` default) instead of
returning the response.  `upstream` is the sequence of statuses the server
answers on the successive wire-level attempts of this one `session.get`. -/
def adapterGet : Nat → List Nat → Except FetchFail Nat
  | _, [] => .error .connectionError
  | 0, s :: _ => if s ∈ statusForcelist then .error .retryError else .ok s
  | r + 1, s :: rest => if s ∈ statusForcelist then adapterGet r rest else .ok s

/-- `session.get(API_URL, ...)` under the `make_session` configuration
(`total = 5` retries). -/
def sessionGet (upstream : List Nat) : Except FetchFail Nat := adapterGet 5 upstream

structure FetchTrace where
  /-- `(startIndex, resultsPerPage)` sent on each caller attempt. -/
  requests : List (Int × Int)
  /-- seconds slept by the orchestrator between attempts. -/
  sleeps : List Nat
  /-- the status accepted by the loop body, when one arrived. -/
  status : Option Nat
deriving DecidableEq

/-- The fetch portion of one loop offset (lines 108-129): every attempt
sends `params = \x7b"startIndex": start, "resultsPerPage": page_size\x7d`
(113-117); a 429 *response* makes the orchestrator sleep 60 s and retry
(118-123); an exception — including the adapter's RetryError — or an error
status via `raise_for_status` makes it sleep 5 s and retry (124-129); a
success leaves the fetch phase.  `upstream` holds one status sequence per
caller attempt, `fuel` bounds the attempts examined. -/
def fetchLoop (start pageSize : Int) : Nat → List (List Nat) → FetchTrace
  | 0, _ => ⟨[], [], none⟩
  | _ + 1, [] => ⟨[], [], none⟩
  | fuel + 1, att :: rest =>
    match sessionGet att with
    | .error _ =>
      let t := fetchLoop start pageSize fuel rest
      ⟨(start, pageSize) :: t.requests, 5 :: t.sleeps, t.status⟩
    | .ok s =>
      if s == 429 then
        let t := fetchLoop start pageSize fuel rest
        ⟨(start, pageSize) :: t.requests, 60 :: t.sleeps, t.status⟩
      else if 400 ≤ s then
        let t := fetchLoop start pageSize fuel rest
        ⟨(start, pageSize) :: t.requests, 5 :: t.sleeps, t.status⟩
      else ⟨[(start, pageSize)], [], some s⟩

theorem adapterGet_ok_not_forcelist :
    ∀ (r : Nat) (ups : List Nat) (s : Nat),
      adapterGet r ups = .ok s → s ∉ statusForcelist := by
  intro r ups
  induction ups generalizing r with
  | nil => intro s h; exact absurd h (by simp [adapterGet])
  | cons s0 rest ih =>
    intro s h
    cases r with
    | zero =>
      simp only [adapterGet] at h
      split at h
      · exact absurd h (by simp)
      · rename_i hnotin
        injection h with h
        subst h
        exact hnotin
    | succ r' =>
      simp only [adapterGet] at h
      split at h
      · exact ih r' s h
      · rename_i hnotin
        injection h with h
        subst h
        exact hnotin

/-- C9 counterexample: an upstream 429 answered by a 200 on the retry is
absorbed entirely inside the HTTP adapter (429 is in its status
forcelist): the orchestrator performs no 60-second cooldown, no second
caller-level request, and simply receives the 200. -/
theorem claim9_counterexample :
    sessionGet [429, 200] = .ok 200 ∧
    fetchLoop 0 2000 3 [[429, 200]] = ⟨[(0, 2000)], [], some 200⟩ := by
  constructor <;> decide

/-- C9 (amended).  429 responses are retried inside the HTTP adapter, whose
status forcelist includes 429, so the orchestrator never sees a 429 (or any
forcelist status): its 60-second cooldown branch is unreachable and every
sleep it performs is the generic 5-second retry delay; every attempt uses
the identical `startIndex` and `resultsPerPage`; a status accepted by the
loop body is a non-error status outside the forcelist. -/
theorem claim9_429_handled_in_adapter (start pageSize : Int) (fuel : Nat)
    (ups : List (List Nat)) :
    60 ∉ (fetchLoop start pageSize fuel ups).sleeps ∧
    (∀ q ∈ (fetchLoop start pageSize fuel ups).requests, q = (start, pageSize)) ∧
    (∀ s, (fetchLoop start pageSize fuel ups).status = some s →
      s ∉ statusForcelist ∧ s < 400) := by
  induction fuel generalizing ups with
  | zero =>
    refine ⟨by simp [fetchLoop], by simp [fetchLoop], ?_⟩
    intro s h
    simp [fetchLoop] at h
  | succ fuel ih =>
    cases ups with
    | nil =>
      refine ⟨by simp [fetchLoop], by simp [fetchLoop], ?_⟩
      intro s h
      simp [fetchLoop] at h
    | cons att rest =>
      rcases hget : sessionGet att with e | s
      · obtain ⟨ih1, ih2, ih3⟩ := ih rest
        refine ⟨?_, ?_, ?_⟩
        · simp only [fetchLoop, hget]
          intro hmem
          rcases List.mem_cons.mp hmem with h60 | h60
          · exact absurd h60.symm (by decide)
          · exact ih1 h60
        · simp only [fetchLoop, hget]
          intro q hq
          rcases List.mem_cons.mp hq with rfl | hq
          · rfl
          · exact ih2 q hq
        · simp only [fetchLoop, hget]
          exact ih3
      · have hnf : s ∉ statusForcelist := adapterGet_ok_not_forcelist 5 att s hget
        have h429 : (s == 429) = false := by
          rw [beq_eq_false_iff_ne]
          intro hs
          exact hnf (by rw [hs]; decide)
        by_cases h400 : 400 ≤ s
        · obtain ⟨ih1, ih2, ih3⟩ := ih rest
          refine ⟨?_, ?_, ?_⟩
          · simp only [fetchLoop, hget, h429, Bool.false_eq_true, if_false, if_pos h400]
            intro hmem
            rcases List.mem_cons.mp hmem with h60 | h60
            · exact absurd h60.symm (by decide)
            · exact ih1 h60
          · simp only [fetchLoop, hget, h429, Bool.false_eq_true, if_false, if_pos h400]
            intro q hq
            rcases List.mem_cons.mp hq with rfl | hq
            · rfl
            · exact ih2 q hq
          · simp only [fetchLoop, hget, h429, Bool.false_eq_true, if_false, if_pos h400]
            exact ih3
        · refine ⟨?_, ?_, ?_⟩
          · simp [fetchLoop, hget, h429, if_neg h400]
          · simp only [fetchLoop, hget, h429, Bool.false_eq_true, if_false, if_neg h400]
            intro q hq
            rcases List.mem_cons.mp hq with rfl | hq
            · rfl
            · exact absurd hq (by simp)
          · simp only [fetchLoop, hget, h429, Bool.false_eq_true, if_false, if_neg h400]
            intro s' h
            injection h with h
            subst h
            exact ⟨hnf, by omega⟩

theorem claim9_witness :
    60 ∉ (fetchLoop 0 2000 3 [[429, 429, 429, 429, 429, 429], [200]]).sleeps :=
  (claim9_429_handled_in_adapter 0 2000 3 [[429, 429, 429, 429, 429, 429], [200]]).1

/-! ## Read-API ordering (views.py, lines 91-139) -/

/-- `ordering_fields` of the viewset (views.py lines 103-109).  Note that
`id` is not among them. -/
def ordering_fields : List String :=
  ["cveId", "eventName", "cveChangeId", "sourceIdentifier", "created"]

/-- `ordering = ['created']`, the view's default (line 110). -/
def view_default_ordering : List String := ["created"]

/-- Python `s.lstrip('-')`. -/
def pyLstripDash (s : String) : String :=
  String.mk (s.data.dropWhile (fun c => c = '-'))

/-- Python `s.strip()`. -/
def pyStrip (s : String) : String :=
  String.mk (((s.data.dropWhile Char.isWhitespace).reverse.dropWhile
    Char.isWhitespace).reverse)

/-- `get_queryset` (lines 126-137): the `order_by` argument list it applies
from the `sort` query parameter (which defaults to `"created"`, line 127);
`[]` means it applies no `order_by` at all (the multi-field and
unrecognized-field paths fall through, lines 130-137). -/
def get_queryset_ordering (sortParam : Option String) : List String :=
  let ordering := pySplit ',' (sortParam.getD "created")
  if ordering.length == 1 then
    let first := ordering.headD ""
    let sort_field := pyLstripDash first
    if sort_field ∈ ["created"] then [first, "id"]
    else if sort_field ∈ ["cveId", "eventName"] then [first, "id"]
    else []
  else []

/-- Modelled from the rest_framework `OrderingFilter` backend configured at
lines 91-110: after `get_queryset`, it computes its ordering from the
`ordering` query parameter — comma-split, stripped, and filtered against
`ordering_fields` (a leading `-` allowed) — falling back to the view's
default `['created']` when the parameter is absent or yields no valid
field. -/
def backend_ordering (orderingParam : Option String) : List String :=
  match orderingParam with
  | some p =>
    let fields := (pySplit ',' p).map pyStrip
    let valid := fields.filter (fun f => decide (pyLstripDash f ∈ ordering_fields))
    if valid.isEmpty then view_default_ordering else valid
  | none => view_default_ordering

/-- The ordering of the response: when the backend produces a non-empty
list (it always does), its `order_by` replaces whatever `get_queryset`
applied. -/
def response_ordering (sortParam orderingParam : Option String) : List String :=
  if (backend_ordering orderingParam).isEmpty then get_queryset_ordering sortParam
  else backend_ordering orderingParam

/-- C10 counterexample: a list request sorting by two comma-separated
fields gets no `id` secondary sort — `get_queryset` applies no ordering at
all for it, and the final response ordering (backend default) is plain
`created` with no `id` tiebreaker. -/
theorem claim10_counterexample :
    get_queryset_ordering (some "-created,cveId") = [] ∧
    response_ordering (some "-created,cveId") none = ["created"] := by
  constructor <;> decide

/-- C10 (amended).  `get_queryset` appends the surrogate key `id` as a
secondary sort only when the `sort` parameter holds exactly one field whose
name (after stripping `-`) is `created`, `cveId` or `eventName`;
multi-field requests get no ordering from it.  Moreover the ordering filter
backend then overrides the queryset ordering and never emits `id` (it is
not in `ordering_fields`), so the response ordering never contains an `id`
secondary sort at all. -/
theorem claim10_sort_ordering (sortParam orderingParam : Option String) :
    "id" ∉ response_ordering sortParam orderingParam ∧
    (get_queryset_ordering sortParam ≠ [] →
      ∃ f, pySplit ',' (sortParam.getD "created") = [f] ∧
        get_queryset_ordering sortParam = [f, "id"] ∧
        (pyLstripDash f = "created" ∨ pyLstripDash f = "cveId" ∨
          pyLstripDash f = "eventName")) := by
  constructor
  · have hid : pyLstripDash "id" = "id" := by decide
    have hidnot : "id" ∉ ordering_fields := by decide
    rw [response_ordering]
    split
    · rename_i hemp
      rw [List.isEmpty_iff] at hemp
      exfalso
      rcases orderingParam with _ | p
      · simp [backend_ordering, view_default_ordering] at hemp
      · simp only [backend_ordering] at hemp
        split at hemp
        · simp [view_default_ordering] at hemp
        · rename_i hvalid
          rw [List.isEmpty_iff] at hvalid
          exact hvalid hemp
    · rcases orderingParam with _ | p
      · simp [backend_ordering, view_default_ordering]
      · simp only [backend_ordering]
        split
        · simp [view_default_ordering]
        · intro hmem
          have := (List.mem_filter.mp hmem).2
          simp only [decide_eq_true_eq, hid] at this
          exact hidnot this
  · intro hne
    rw [get_queryset_ordering] at hne ⊢
    rcases hsp : pySplit ',' (sortParam.getD "created") with _ | ⟨f, rest⟩
    · rw [hsp] at hne
      simp at hne
    · rw [hsp] at hne
      cases rest with
      | nil =>
        refine ⟨f, rfl, ?_⟩
        have hone : (([f] : List String).length == 1) = true := rfl
        rw [if_pos hone] at hne ⊢
        simp only [List.headD_cons] at hne ⊢
        by_cases h1 : pyLstripDash f ∈ ["created"]
        · rw [if_pos h1]
          exact ⟨rfl, Or.inl (List.mem_singleton.mp h1)⟩
        · by_cases h2 : pyLstripDash f ∈ ["cveId", "eventName"]
          · rw [if_neg h1, if_pos h2]
            rcases List.mem_cons.mp h2 with h2 | h2
            · exact ⟨rfl, Or.inr (Or.inl h2)⟩
            · exact ⟨rfl, Or.inr (Or.inr (List.mem_singleton.mp h2))⟩
          · rw [if_neg h1, if_neg h2] at hne
            exact absurd rfl hne
      | cons g rest2 =>
        rw [if_neg (by simp)] at hne
        exact absurd rfl hne

theorem claim10_witness :
    "id" ∉ response_ordering (some "created") none ∧
    ∃ f, pySplit ',' ((some "created").getD "created") = [f] ∧
      get_queryset_ordering (some "created") = [f, "id"] ∧
      (pyLstripDash f = "created" ∨ pyLstripDash f = "cveId" ∨
        pyLstripDash f = "eventName") :=
  ⟨(claim10_sort_ordering (some "created") none).1,
    (claim10_sort_ordering (some "created") none).2 (by decide)⟩

end CveRecords
